import Mathlib

/-!
Verification of the line-parsing and rendering pipeline of `rustycat`
(`src/main.rs`): field extraction from logcat-style lines, the tag color
registry, tag-change suppression, and terminal-width word wrapping.

Strings are modelled as `List Char` (the source only ever manipulates ASCII
log text, where Rust byte indices and character indices coincide).  ANSI
coloring by the `colored` crate is modelled concretely: a styled string
renders as an SGR escape prefix, the text, and a reset suffix; an unstyled
string renders as itself.  Rust's `format!` width padding counts the whole
escaped string, exactly as the source does.

The `while` loop of `format_multiline_content` is modelled with explicit
fuel; the fuel supplied is always sufficient when the available width is
positive, and a `none` result signals that the loop exhausts any amount of
fuel, i.e. that the source loop does not terminate.

A Rust panic (the out-of-bounds slice `&ms[..3]`) is modelled by the
`ExtractResult.panicked` constructor.
-/

namespace Rustycat

/-- Layout constant `TAG_WIDTH` from the source. -/
def TAG_WIDTH : Nat := 25

/-- Layout constant `LEFT_PADDING` from the source. -/
def LEFT_PADDING : Nat := 2

/-- Layout constant `TIMESTAMP_WIDTH` from the source. -/
def TIMESTAMP_WIDTH : Nat := 12

/-- The colors of the `colored` crate used by the source. -/
inductive Color where
  | black | red | green | yellow | blue | magenta | cyan | white
  | brightBlack | brightRed | brightGreen | brightYellow
  | brightBlue | brightMagenta | brightCyan | brightWhite
  deriving DecidableEq, Repr

/-- ANSI SGR foreground code of a color, as emitted by the `colored` crate. -/
def fgCode : Color → List Char
  | Color.black => "30".toList
  | Color.red => "31".toList
  | Color.green => "32".toList
  | Color.yellow => "33".toList
  | Color.blue => "34".toList
  | Color.magenta => "35".toList
  | Color.cyan => "36".toList
  | Color.white => "37".toList
  | Color.brightBlack => "90".toList
  | Color.brightRed => "91".toList
  | Color.brightGreen => "92".toList
  | Color.brightYellow => "93".toList
  | Color.brightBlue => "94".toList
  | Color.brightMagenta => "95".toList
  | Color.brightCyan => "96".toList
  | Color.brightWhite => "97".toList

/-- ANSI SGR background code of a color (`on_...` in the `colored` crate). -/
def bgCode : Color → List Char
  | Color.black => "40".toList
  | Color.red => "41".toList
  | Color.green => "42".toList
  | Color.yellow => "43".toList
  | Color.blue => "44".toList
  | Color.magenta => "45".toList
  | Color.cyan => "46".toList
  | Color.white => "47".toList
  | Color.brightBlack => "100".toList
  | Color.brightRed => "101".toList
  | Color.brightGreen => "102".toList
  | Color.brightYellow => "103".toList
  | Color.brightBlue => "104".toList
  | Color.brightMagenta => "105".toList
  | Color.brightCyan => "106".toList
  | Color.brightWhite => "107".toList

/-- Style of a `ColoredString` of the `colored` crate: optional bold,
optional foreground color, optional background color. -/
structure Style where
  bold : Bool
  fg : Option Color
  bg : Option Color
  deriving DecidableEq, Repr

/-- Style produced by `.color(c)`: foreground only. -/
def fgOnly (c : Color) : Style := Style.mk false (some c) none

/-- Style produced by `.black().bold().on_<bg>()`, used by the level badges. -/
def blackBoldOn (bg : Color) : Style := Style.mk true (some Color.black) (some bg)

/-- Style produced by `.normal()`: no styling at all. -/
def normalStyle : Style := Style.mk false none none

/-- A `ColoredString` with no styling renders without escape sequences. -/
def isPlain (s : Style) : Bool := !s.bold && s.fg.isNone && s.bg.isNone

/-- The SGR code components of a style, in the order style, fg, bg. -/
def sgrCodes (s : Style) : List (List Char) :=
  (if s.bold then [['1']] else []) ++
    (match s.fg with
     | some c => [fgCode c]
     | none => []) ++
    (match s.bg with
     | some c => [bgCode c]
     | none => [])

/-- Join code components with semicolons. -/
def joinSemi : List (List Char) → List Char
  | [] => []
  | [x] => x
  | x :: xs => x ++ ';' :: joinSemi xs

/-- The ASCII escape character. -/
def escCh : Char := Char.ofNat 27

/-- Render a styled string: SGR prefix, text, reset suffix; a plain style
renders the bare text (the `colored` crate skips escapes when no styling is
set). -/
def applyStyle (st : Style) (s : List Char) : List Char :=
  if isPlain st then s
  else escCh :: '[' :: joinSemi (sgrCodes st) ++ 'm' :: s ++ [escCh, '[', '0', 'm']

/-- A text together with its style, the model of a `ColoredString`. -/
structure StyledText where
  text : List Char
  style : Style
  deriving DecidableEq, Repr

/-- Display a `ColoredString`. -/
def renderStyled (t : StyledText) : List Char := applyStyle t.style t.text

/-- Whitespace as recognized by Rust `char::is_whitespace` on the ASCII
characters occurring in log lines. -/
def isWs (c : Char) : Bool := c = ' ' || c = '\t' || c = '\n' || c = '\r'

/-- A run of `n` spaces (`" ".repeat(n)`). -/
def spaces (n : Nat) : List Char := List.replicate n ' '

/-- Right-aligned fixed-width formatting: Rust `format!` with `{:>width$}`.
Pads on the left with spaces up to `w`, counting every character of `s`
(escape sequences included), and never truncates. -/
def padLeftTo (w : Nat) (s : List Char) : List Char := spaces (w - s.length) ++ s

/-- Left-aligned fixed-width formatting: Rust `format!` with `{:<width$}`. -/
def padRightTo (w : Nat) (s : List Char) : List Char := s ++ spaces (w - s.length)

/-- Worker for `splitWhitespace`; `cur` is the current token, reversed. -/
def splitWsGo : List Char → List Char → List (List Char)
  | [], cur => if cur = [] then [] else [cur.reverse]
  | c :: rest, cur =>
    if isWs c then
      if cur = [] then splitWsGo rest [] else cur.reverse :: splitWsGo rest []
    else splitWsGo rest (c :: cur)

/-- Rust `str::split_whitespace`: split at whitespace runs, no empty tokens. -/
def splitWhitespace (l : List Char) : List (List Char) := splitWsGo l []

/-- Worker for `splitDot`. -/
def splitDotGo : List Char → List Char → List (List Char)
  | [], cur => [cur.reverse]
  | c :: rest, cur =>
    if c = '.' then cur.reverse :: splitDotGo rest [] else splitDotGo rest (c :: cur)

/-- Rust `str::split('.')`: split at every dot, keeping empty pieces. -/
def splitDot (l : List Char) : List (List Char) := splitDotGo l []

/-- Worker for `splitNl`. -/
def splitNlGo : List Char → List Char → List (List Char)
  | [], cur => [cur.reverse]
  | c :: rest, cur =>
    if c = '\n' then cur.reverse :: splitNlGo rest [] else splitNlGo rest (c :: cur)

/-- Split at every newline, keeping empty pieces. -/
def splitNl (l : List Char) : List (List Char) := splitNlGo l []

/-- Rust `str::lines`: split at newlines, with a trailing newline not
producing a final empty line, and an empty string producing no lines. -/
def linesOf (l : List Char) : List (List Char) :=
  if l = [] then []
  else if l.getLast? = some '\n' then splitNl l.dropLast
  else splitNl l

/-- Rust `str::trim_start`. -/
def trimStart (l : List Char) : List Char := l.dropWhile (fun c => isWs c)

/-- Rust `str::trim_end`. -/
def trimEnd (l : List Char) : List Char := (trimStart l.reverse).reverse

/-- Rust `str::trim`. -/
def trim (l : List Char) : List Char := trimEnd (trimStart l)

/-- Rust `str::trim_start_matches(": ")`: repeatedly strip a leading `": "`. -/
def trimColonSpace : List Char → List Char
  | ':' :: ' ' :: rest => trimColonSpace rest
  | l => l

/-- Rust `str::find(": ")`: byte index of the first occurrence of `": "`. -/
def findColonSpace : List Char → Option Nat
  | [] => none
  | ':' :: ' ' :: _ => some 0
  | _ :: rest => (findColonSpace rest).map (fun n => n + 1)

/-- Join tokens with single spaces, Rust `[...].join(" ")`. -/
def joinSpace : List (List Char) → List Char
  | [] => []
  | [x] => x
  | x :: xs => x ++ ' ' :: joinSpace xs

/-- Rust `str::rfind(' ')`: index of the last space, if any. -/
def rfindSpace : List Char → Option Nat
  | [] => none
  | c :: rest =>
    match rfindSpace rest with
    | some n => some (n + 1)
    | none => if c = ' ' then some 0 else none

/-- Result of `extract_log_parts`: `unparseable` models the `None` return
(fewer than 6 tokens), `panicked` models the out-of-bounds slice `&ms[..3]`
when the fractional part has fewer than 3 bytes, and `parsed` carries
`(timestamp, tag, level, message)`. -/
inductive ExtractResult where
  | unparseable
  | panicked
  | parsed (timestamp tag level message : List Char)
  deriving DecidableEq, Repr

/-- `extract_log_parts` from the source: split the line at whitespace,
require at least 6 tokens, take the second token as the time, split it at
dots, default the fractional part to `"000"`, slice the fraction to 3
characters (a panic if it is shorter), take the fifth token as the level,
join the rest, split tag from message at the first `": "`, trim the tag and
strip leading `": "` from the message. -/
def extractLogParts (line : List Char) : ExtractResult :=
  let parts := splitWhitespace line
  if parts.length < 6 then ExtractResult.unparseable
  else
    let timeParts := splitDot (parts.getD 1 [])
    let time := timeParts.getD 0 []
    let ms := timeParts.getD 1 "000".toList
    if ms.length < 3 then ExtractResult.panicked
    else
      let timestamp := time ++ '.' :: ms.take 3
      let level := parts.getD 4 []
      let tagAndMessage := joinSpace (parts.drop 5)
      match findColonSpace tagAndMessage with
      | some pos =>
        ExtractResult.parsed timestamp (trim (tagAndMessage.take pos)) level
          (trimColonSpace (tagAndMessage.drop pos))
      | none => ExtractResult.parsed timestamp (trim tagAndMessage) level []

/-- `get_level_color` from the source: badge text with style, and the color
used for the message body. -/
def getLevelColor (level : List Char) : StyledText × Color :=
  if level = ['D'] then (StyledText.mk " D ".toList (blackBoldOn Color.brightBlue), Color.brightBlue)
  else if level = ['I'] then (StyledText.mk " I ".toList (blackBoldOn Color.brightGreen), Color.brightGreen)
  else if level = ['W'] then (StyledText.mk " W ".toList (blackBoldOn Color.yellow), Color.yellow)
  else if level = ['E'] then (StyledText.mk " E ".toList (blackBoldOn Color.brightRed), Color.brightRed)
  else if level = ['V'] then (StyledText.mk " V ".toList (blackBoldOn Color.blue), Color.blue)
  else if level = ['F'] then (StyledText.mk " F ".toList (blackBoldOn Color.red), Color.red)
  else (StyledText.mk "    ".toList normalStyle, Color.white)

/-- `TAG_COLORS_LIST` from the source: the fixed 12-color palette. -/
def TAG_COLORS_LIST : List Color :=
  [Color.red, Color.green, Color.yellow, Color.blue, Color.magenta, Color.cyan,
   Color.brightRed, Color.brightGreen, Color.brightYellow, Color.brightBlue,
   Color.brightMagenta, Color.brightCyan]

/-- The color the source picks for the `n`-th inserted tag:
`TAG_COLORS_LIST[colors.len() % TAG_COLORS_LIST.len()]`. -/
def paletteColor (n : Nat) : Color :=
  TAG_COLORS_LIST.getD (n % TAG_COLORS_LIST.length) Color.red

/-- The `TAG_COLORS` map: modelled as an association list in insertion
order, so that its length is the number of distinct tags inserted, exactly
`colors.len()` of the source `HashMap`. -/
abbrev TagState := List (List Char × Color)

/-- Map lookup. The source never inserts a key twice, so first-match lookup
agrees with `HashMap::get`. -/
def lookupTag : TagState → List Char → Option Color
  | [], _ => none
  | (k, c) :: rest, tag => if k = tag then some c else lookupTag rest tag

/-- `get_tag_color` from the source: return the stored color, or assign
`TAG_COLORS_LIST[colors.len() % 12]` and insert it. -/
def getTagColor (st : TagState) (tag : List Char) : Color × TagState :=
  match lookupTag st tag with
  | some c => (c, st)
  | none => (paletteColor st.length, st ++ [(tag, paletteColor st.length)])

/-- Feed a sequence of tags through `get_tag_color`, keeping the registry. -/
def runTags (st : TagState) : List (List Char) → TagState
  | [] => st
  | t :: ts => runTags (getTagColor st t).2 ts

/-- One step of first-appearance collection. -/
def faStep (acc : List (List Char)) (t : List Char) : List (List Char) :=
  if t ∈ acc then acc else acc ++ [t]

/-- The distinct tags of a sequence, in first-appearance order. -/
def firstAppear (ts : List (List Char)) : List (List Char) := ts.foldl faStep []

/-- The registry holding tags `ds` assigned palette colors from index `n`
on: the shape the registry always has when built from the empty state. -/
def idealFrom (n : Nat) : List (List Char) → TagState
  | [] => []
  | d :: ds => (d, paletteColor n) :: idealFrom (n + 1) ds

/-- The `(chunk, rest)` computation of the wrap loop in
`format_multiline_content`: if the remaining text exceeds the available
width, break at the last space within the first `avail` characters, else at
`avail`; otherwise take everything. -/
def chunkStep (avail : Nat) (remaining : List Char) : List Char × List Char :=
  if remaining.length > avail then
    match rfindSpace (remaining.take avail) with
    | some lastSpace => (remaining.take lastSpace, remaining.drop lastSpace)
    | none => (remaining.take avail, remaining.drop avail)
  else (remaining, [])

/-- The chunks the wrap loop of `format_multiline_content` produces for one
logical line, with fuel.  Fuel `line.length + 1` is sufficient whenever the
available width is positive. -/
def wrapChunksGo : Nat → Nat → List Char → List (List Char)
  | 0, _, _ => []
  | fuel + 1, avail, remaining =>
    if remaining = [] then []
    else
      let cr := chunkStep avail remaining
      cr.1 :: wrapChunksGo fuel avail (trimStart cr.2)

/-- The chunk sequence for one logical line. -/
def wrapChunks (avail : Nat) (line : List Char) : List (List Char) :=
  wrapChunksGo (line.length + 1) avail line

/-- The inner `while !remaining.is_empty()` loop of
`format_multiline_content`, accumulating into `result` exactly as the
source does: a `"\n" + padding` prefix before every chunk except when this
is the first logical line and nothing has been emitted yet, then the chunk
colored with the message color.  `none` means the fuel ran out, which for
fuel `remaining.length + 1` only happens when the loop diverges. -/
def innerGo : Nat → Nat → Color → List Char → Bool → List Char → List Char → Option (List Char)
  | 0, _, _, _, _, remaining, result => if remaining = [] then some result else none
  | fuel + 1, avail, color, pad, isFirst, remaining, result =>
    if remaining = [] then some result
    else
      let cr := chunkStep avail remaining
      let result1 := if isFirst = true ∧ result = [] then result else result ++ '\n' :: pad
      innerGo fuel avail color pad isFirst (trimStart cr.2)
        (result1 ++ applyStyle (fgOnly color) cr.1)

/-- The outer `for line in content.lines()` loop of
`format_multiline_content`: every line after the first first appends
`"\n" + padding` to the result, then runs the wrap loop. -/
def outerGo (avail : Nat) (color : Color) (pad : List Char) :
    List (List Char) → Bool → List Char → Option (List Char)
  | [], _, result => some result
  | line :: rest, isFirst, result =>
    let result1 := if isFirst then result else result ++ '\n' :: pad
    match innerGo (line.length + 1) avail color pad isFirst line result1 with
    | none => none
    | some result2 => outerGo avail color pad rest false result2

/-- The message-start column of `format_multiline_content`:
`LEFT_PADDING + timestamp_width + TAG_WIDTH + 4 + 2`. -/
def messageStartPadding (hideTimestamp : Bool) : Nat :=
  LEFT_PADDING + (if hideTimestamp then 0 else TIMESTAMP_WIDTH) + TAG_WIDTH + 4 + 2

/-- `format_multiline_content` from the source.  `termWidth` is the result
of `terminal_size()`: the source substitutes 80 only when it is
unavailable (`unwrap_or(80)`); the available width is the terminal width
minus the message-start column, saturating at zero. -/
def formatMultilineContent (content : List Char) (color : Color)
    (hideTimestamp : Bool) (termWidth : Option Nat) : Option (List Char) :=
  outerGo (termWidth.getD 80 - messageStartPadding hideTimestamp) color
    (spaces (messageStartPadding hideTimestamp)) (linesOf content) true []

/-- The per-stream state the source keeps in thread locals: the
`LAST_TAG` slot and the `TAG_COLORS` registry. -/
structure StreamState where
  lastTag : List Char
  tagColors : TagState
  deriving DecidableEq, Repr

/-- The tag column of `format_log_line`: the tag itself when it changed,
else a same-length run of spaces, both colored with the tag's color and
right-aligned in a `TAG_WIDTH` column (the padding counts escape
characters, exactly like Rust `format!`). -/
def tagColumn (showTag : Bool) (c : Color) (tag : List Char) : List Char :=
  if showTag then padLeftTo TAG_WIDTH (applyStyle (fgOnly c) tag)
  else padLeftTo TAG_WIDTH (applyStyle (fgOnly c) (spaces tag.length))

/-- The timestamp column of `format_log_line`: empty when hidden, else the
timestamp in bright black, left-aligned in a `TIMESTAMP_WIDTH` column,
followed by one space. -/
def timestampColumn (hideTimestamp : Bool) (timestamp : List Char) : List Char :=
  if hideTimestamp then []
  else padRightTo TIMESTAMP_WIDTH (applyStyle (fgOnly Color.brightBlack) timestamp) ++ [' ']

/-- `format_log_line` from the source, with the thread-local state passed
explicitly.  An unparseable line is returned unchanged with the state
untouched.  `none` models a crash of the source: either the extraction
panic or a diverging wrap loop. -/
def formatLogLine (line : List Char) (hideTimestamp : Bool) (termWidth : Option Nat)
    (st : StreamState) : Option (List Char × StreamState) :=
  match extractLogParts line with
  | ExtractResult.unparseable => some (line, st)
  | ExtractResult.panicked => none
  | ExtractResult.parsed timestamp tag level content =>
    match formatMultilineContent content (getLevelColor level).2 hideTimestamp termWidth with
    | none => none
    | some fc =>
      some (spaces LEFT_PADDING
          ++ timestampColumn hideTimestamp timestamp
          ++ (if st.lastTag = tag then tagColumn false (getTagColor st.tagColors tag).1 tag
              else tagColumn true (getTagColor st.tagColors tag).1 tag)
          ++ ' ' :: renderStyled (getLevelColor level).1
          ++ ' ' :: fc,
        StreamState.mk tag (getTagColor st.tagColors tag).2)

/-! ## Basic lemmas -/

theorem extract_of_few_tokens (line : List Char)
    (h : (splitWhitespace line).length < 6) :
    extractLogParts line = ExtractResult.unparseable := by
  unfold extractLogParts
  simp [h]

theorem lookup_idealFrom_of_not_mem (n : Nat) (ds : List (List Char)) (t : List Char)
    (h : t ∉ ds) : lookupTag (idealFrom n ds) t = none := by
  induction ds generalizing n with
  | nil => rfl
  | cons d ds ih =>
    simp only [List.mem_cons, not_or] at h
    simp only [idealFrom, lookupTag]
    rw [if_neg (fun hdt => h.1 hdt.symm)]
    exact ih (n + 1) h.2

theorem lookup_idealFrom_isSome_of_mem (n : Nat) (ds : List (List Char)) (t : List Char)
    (h : t ∈ ds) : (lookupTag (idealFrom n ds) t).isSome := by
  induction ds generalizing n with
  | nil => simp at h
  | cons d ds ih =>
    simp only [idealFrom, lookupTag]
    by_cases hdt : d = t
    · simp [hdt]
    · rw [if_neg hdt]
      rcases List.mem_cons.mp h with h1 | h2
      · exact absurd h1.symm hdt
      · exact ih (n + 1) h2

theorem idealFrom_length (n : Nat) (ds : List (List Char)) :
    (idealFrom n ds).length = ds.length := by
  induction ds generalizing n with
  | nil => rfl
  | cons d ds ih => simp [idealFrom, ih]

theorem idealFrom_append (n : Nat) (ds : List (List Char)) (t : List Char) :
    idealFrom n (ds ++ [t]) = idealFrom n ds ++ [(t, paletteColor (n + ds.length))] := by
  induction ds generalizing n with
  | nil => simp [idealFrom]
  | cons d ds ih =>
    show (d, paletteColor n) :: idealFrom (n + 1) (ds ++ [t]) = _
    rw [ih (n + 1)]
    have harith : n + 1 + ds.length = n + (ds.length + 1) := by omega
    simp only [idealFrom, List.cons_append, List.length_cons, harith]

theorem runTags_idealFrom (ts : List (List Char)) (ds : List (List Char)) :
    runTags (idealFrom 0 ds) ts = idealFrom 0 (ts.foldl faStep ds) := by
  induction ts generalizing ds with
  | nil => rfl
  | cons t ts ih =>
    simp only [runTags, List.foldl_cons]
    by_cases hmem : t ∈ ds
    · have hs := lookup_idealFrom_isSome_of_mem 0 ds t hmem
      cases hl : lookupTag (idealFrom 0 ds) t with
      | none => rw [hl] at hs; simp at hs
      | some c =>
        have hst : (getTagColor (idealFrom 0 ds) t).2 = idealFrom 0 ds := by
          simp [getTagColor, hl]
        have hfa : faStep ds t = ds := by simp [faStep, hmem]
        rw [hst, hfa]
        exact ih ds
    · have hl := lookup_idealFrom_of_not_mem 0 ds t hmem
      have hst : (getTagColor (idealFrom 0 ds) t).2
          = idealFrom 0 ds ++ [(t, paletteColor ds.length)] := by
        simp [getTagColor, hl, idealFrom_length]
      have happ : idealFrom 0 ds ++ [(t, paletteColor ds.length)]
          = idealFrom 0 (ds ++ [t]) := by
        rw [idealFrom_append]
        simp
      have hfa : faStep ds t = ds ++ [t] := by simp [faStep, hmem]
      rw [hst, happ, hfa]
      exact ih (ds ++ [t])

theorem nodup_foldl_faStep (ts : List (List Char)) (ds : List (List Char))
    (h : ds.Nodup) : (ts.foldl faStep ds).Nodup := by
  induction ts generalizing ds with
  | nil => exact h
  | cons t ts ih =>
    simp only [List.foldl_cons]
    apply ih
    by_cases hmem : t ∈ ds
    · simpa [faStep, hmem] using h
    · simp [faStep, hmem, List.nodup_append, h]

theorem lookup_idealFrom_getD (n : Nat) (ds : List (List Char)) (h : ds.Nodup)
    (i : Nat) (hi : i < ds.length) :
    lookupTag (idealFrom n ds) (ds.getD i []) = some (paletteColor (n + i)) := by
  induction ds generalizing n i with
  | nil => simp at hi
  | cons d ds ih =>
    cases i with
    | zero => simp [idealFrom, lookupTag, List.getD]
    | succ j =>
      have hj : j < ds.length := by simpa using hi
      have hd : d ∉ ds := (List.nodup_cons.mp h).1
      have hget : (d :: ds).getD (j + 1) [] = ds.getD j [] := by simp [List.getD]
      rw [hget]
      simp only [idealFrom, lookupTag]
      have hne : d ≠ ds.getD j [] := by
        intro heq
        apply hd
        rw [heq, List.getD_eq_getElem ds [] hj]
        exact List.getElem_mem hj
      rw [if_neg hne, ih (n + 1) (List.nodup_cons.mp h).2 j hj]
      have harith : n + 1 + j = n + (j + 1) := by omega
      rw [harith]

/-! ## Claims -/

/-- C1: tag color assignment is deterministic in first-appearance order and
idempotent: after feeding any tag sequence to `get_tag_color` starting from
the empty registry, the i-th distinct tag to appear (0-indexed) is mapped
to the (i mod 12)-th color of the fixed palette, and a call of
`get_tag_color` with an already-assigned tag returns the stored color and
leaves the registry unchanged. -/
theorem c1_tag_color_first_appearance_order (ts : List (List Char)) (i : Nat)
    (hi : i < (firstAppear ts).length) :
    lookupTag (runTags [] ts) ((firstAppear ts).getD i [])
        = some (TAG_COLORS_LIST.getD (i % TAG_COLORS_LIST.length) Color.red) ∧
      ∀ (st : TagState) (tag : List Char) (c : Color),
        lookupTag st tag = some c → getTagColor st tag = (c, st) := by
  constructor
  · have hrun : runTags [] ts = idealFrom 0 (firstAppear ts) :=
      runTags_idealFrom ts []
    rw [hrun]
    have hnd : (firstAppear ts).Nodup := nodup_foldl_faStep ts [] (by simp)
    have hl := lookup_idealFrom_getD 0 (firstAppear ts) hnd i hi
    simpa [paletteColor] using hl
  · intro st tag c h
    simp [getTagColor, h]

/-- Witness for C1: after the sequence `A, B, A, C` the third distinct tag
`C` holds the third palette color, yellow. -/
theorem c1_witness :
    lookupTag (runTags [] ["A".toList, "B".toList, "A".toList, "C".toList])
        ((firstAppear ["A".toList, "B".toList, "A".toList, "C".toList]).getD 2 [])
      = some (TAG_COLORS_LIST.getD (2 % TAG_COLORS_LIST.length) Color.red) :=
  (c1_tag_color_first_appearance_order
    ["A".toList, "B".toList, "A".toList, "C".toList] 2 (by decide)).1

/-- C5: for every input line with fewer than 6 whitespace-separated tokens,
field extraction signals unparseable and the formatter returns the raw
input line unchanged; such a line is never dropped. -/
theorem c5_unparseable_passthrough (line : List Char) (hideTimestamp : Bool)
    (termWidth : Option Nat) (st : StreamState)
    (h : (splitWhitespace line).length < 6) :
    extractLogParts line = ExtractResult.unparseable ∧
      (formatLogLine line hideTimestamp termWidth st).map Prod.fst = some line := by
  have he := extract_of_few_tokens line h
  refine ⟨he, ?_⟩
  simp [formatLogLine, he]

/-- Witness for C5 at the two-token line `"short line"`. -/
theorem c5_witness :
    extractLogParts "short line".toList = ExtractResult.unparseable ∧
      (formatLogLine "short line".toList false (some 80)
          (StreamState.mk [] [])).map Prod.fst = some "short line".toList :=
  c5_unparseable_passthrough "short line".toList false (some 80)
    (StreamState.mk [] []) (by decide)

/-- C10: formatting an unparseable line (fewer than 6 whitespace-separated
tokens) leaves the threaded stream state unchanged: the tag color registry
and the last-rendered-tag slot are exactly the prior state, for every such
line and every prior state. -/
theorem c10_unparseable_state_unchanged (line : List Char) (hideTimestamp : Bool)
    (termWidth : Option Nat) (st : StreamState)
    (h : (splitWhitespace line).length < 6) :
    (formatLogLine line hideTimestamp termWidth st).map Prod.snd = some st := by
  have he := extract_of_few_tokens line h
  simp [formatLogLine, he]

/-- Witness for C10 at the three-token line `"hello world again"` and a
nonempty prior state. -/
theorem c10_witness :
    (formatLogLine "hello world again".toList true (some 80)
        (StreamState.mk "A".toList [("A".toList, Color.red)])).map Prod.snd
      = some (StreamState.mk "A".toList [("A".toList, Color.red)]) :=
  c10_unparseable_state_unchanged "hello world again".toList true (some 80)
    (StreamState.mk "A".toList [("A".toList, Color.red)]) (by decide)

/-- C4: the code slices the fractional part with `&ms[..3]`, which panics
when the fraction is shorter than 3 bytes instead of padding it: a line
whose timestamp fraction has one digit makes extraction panic, while a
fraction of at least 3 digits is truncated to 3 and an absent fraction is
substituted by `000` as the claim says. -/
theorem c4_short_fraction_panics :
    extractLogParts "02-03 15:44:41.7 2359 3654 I MyTag: Hello".toList
        = ExtractResult.panicked ∧
      extractLogParts "02-03 15:44:41.70456 2359 3654 I MyTag: Hello".toList
        = ExtractResult.parsed "15:44:41.704".toList "MyTag".toList "I".toList "Hello".toList ∧
      extractLogParts "02-03 15:44:41 2359 3654 I MyTag: Hello".toList
        = ExtractResult.parsed "15:44:41.000".toList "MyTag".toList "I".toList "Hello".toList := by
  decide

/-- C6: end-to-end on the concrete line
`02-03 15:44:41.704 2359 3654 I MyTag: Hello world` with timestamps
enabled and width 80: the timestamp field reads `15:44:41.704`, the tag
field shows `MyTag` colored with the first palette color, the level badge
is `I` styled as Info (black bold on bright green), the message reads
`Hello world` in the Info color; a second consecutive render of the same
line renders the blank tag field of equal width. -/
theorem c6_end_to_end :
    extractLogParts "02-03 15:44:41.704 2359 3654 I MyTag: Hello world".toList
        = ExtractResult.parsed "15:44:41.704".toList "MyTag".toList "I".toList "Hello world".toList ∧
      formatLogLine "02-03 15:44:41.704 2359 3654 I MyTag: Hello world".toList false (some 80)
          (StreamState.mk [] [])
        = some (spaces LEFT_PADDING
              ++ timestampColumn false "15:44:41.704".toList
              ++ tagColumn true Color.red "MyTag".toList
              ++ ' ' :: renderStyled (StyledText.mk " I ".toList (blackBoldOn Color.brightGreen))
              ++ ' ' :: applyStyle (fgOnly Color.brightGreen) "Hello world".toList,
            StreamState.mk "MyTag".toList [("MyTag".toList, Color.red)]) ∧
      formatLogLine "02-03 15:44:41.704 2359 3654 I MyTag: Hello world".toList false (some 80)
          (StreamState.mk "MyTag".toList [("MyTag".toList, Color.red)])
        = some (spaces LEFT_PADDING
              ++ timestampColumn false "15:44:41.704".toList
              ++ tagColumn false Color.red "MyTag".toList
              ++ ' ' :: renderStyled (StyledText.mk " I ".toList (blackBoldOn Color.brightGreen))
              ++ ' ' :: applyStyle (fgOnly Color.brightGreen) "Hello world".toList,
            StreamState.mk "MyTag".toList [("MyTag".toList, Color.red)]) ∧
      tagColumn false Color.red "MyTag".toList
        = padLeftTo TAG_WIDTH (applyStyle (fgOnly Color.red) (spaces 5)) ∧
      (tagColumn false Color.red "MyTag".toList).length
        = (tagColumn true Color.red "MyTag".toList).length := by
  decide

theorem applyStyle_length_eq (st : Style) (s t : List Char)
    (h : s.length = t.length) :
    (applyStyle st s).length = (applyStyle st t).length := by
  unfold applyStyle
  by_cases hp : isPlain st
  · simp [hp, h]
  · simp [hp, h]

theorem tagColumn_length_eq (c : Color) (tag : List Char) :
    (tagColumn false c tag).length = (tagColumn true c tag).length := by
  have hl : (applyStyle (fgOnly c) (List.replicate tag.length ' ')).length
      = (applyStyle (fgOnly c) tag).length :=
    applyStyle_length_eq (fgOnly c) (List.replicate tag.length ' ') tag (by simp)
  simp [tagColumn, padLeftTo, spaces]
  rw [hl]

/-- C2: tag suppression compares only to the immediately previous rendered
tag: rendering a parseable line whose tag equals the last-tag slot produces
the blank tag column, a same-length run of spaces in the tag's color padded
to the same width as the shown column; a differing tag produces the shown
tag column; in both cases the slot is set to the line's tag afterwards. -/
theorem c2_tag_suppression (line timestamp tag level content : List Char)
    (hideTimestamp : Bool) (termWidth : Option Nat) (st : StreamState) (fc : List Char)
    (hparse : extractLogParts line = ExtractResult.parsed timestamp tag level content)
    (hfmc : formatMultilineContent content (getLevelColor level).2 hideTimestamp termWidth
      = some fc) :
    formatLogLine line hideTimestamp termWidth st
        = some (spaces LEFT_PADDING
            ++ timestampColumn hideTimestamp timestamp
            ++ (if st.lastTag = tag then tagColumn false (getTagColor st.tagColors tag).1 tag
                else tagColumn true (getTagColor st.tagColors tag).1 tag)
            ++ ' ' :: renderStyled (getLevelColor level).1
            ++ ' ' :: fc,
          StreamState.mk tag (getTagColor st.tagColors tag).2) ∧
      (∀ c, tagColumn false c tag
          = padLeftTo TAG_WIDTH (applyStyle (fgOnly c) (spaces tag.length))) ∧
      ∀ c, (tagColumn false c tag).length = (tagColumn true c tag).length := by
  refine ⟨?_, ?_, ?_⟩
  · simp [formatLogLine, hparse, hfmc]
  · intro c
    simp [tagColumn]
  · intro c
    exact tagColumn_length_eq c tag

/-- Witness for C2 at a line whose tag `Net` equals the last rendered tag,
so the tag column is suppressed. -/
theorem c2_witness :
    formatLogLine "02-03 15:44:41.704 2359 3654 W Net: down".toList false (some 80)
        (StreamState.mk "Net".toList [])
        = some (spaces LEFT_PADDING
            ++ timestampColumn false "15:44:41.704".toList
            ++ (if ("Net".toList : List Char) = "Net".toList
                then tagColumn false (getTagColor [] "Net".toList).1 "Net".toList
                else tagColumn true (getTagColor [] "Net".toList).1 "Net".toList)
            ++ ' ' :: renderStyled (getLevelColor "W".toList).1
            ++ ' ' :: applyStyle (fgOnly Color.yellow) "down".toList,
          StreamState.mk "Net".toList (getTagColor [] "Net".toList).2) ∧
      (∀ c, tagColumn false c "Net".toList
          = padLeftTo TAG_WIDTH (applyStyle (fgOnly c) (spaces "Net".toList.length))) ∧
      ∀ c, (tagColumn false c "Net".toList).length
          = (tagColumn true c "Net".toList).length :=
  c2_tag_suppression "02-03 15:44:41.704 2359 3654 W Net: down".toList
    "15:44:41.704".toList "Net".toList "W".toList "down".toList false (some 80)
    (StreamState.mk "Net".toList []) (applyStyle (fgOnly Color.yellow) "down".toList)
    (by decide) (by decide)

theorem rfindSpace_eq_none (l : List Char) (h : ∀ c ∈ l, c ≠ ' ') :
    rfindSpace l = none := by
  induction l with
  | nil => rfl
  | cons c rest ih =>
    simp only [rfindSpace]
    rw [ih (fun x hx => h x (List.mem_cons_of_mem c hx))]
    simp [h c (List.mem_cons_self c rest)]

theorem getD_take_eq (line : List Char) (avail j : Nat) (hj : j < avail)
    (hjl : j < line.length) :
    (line.take avail).getD j 'x' = line.getD j 'x' := by
  have h1 : j < (line.take avail).length := by
    rw [List.length_take]
    omega
  rw [List.getD_eq_getElem _ _ h1, List.getD_eq_getElem _ _ hjl]
  exact List.getElem_take line

theorem rfindSpace_eq_some (l : List Char) (i : Nat) (hi : i < l.length)
    (hsp : l.getD i 'x' = ' ')
    (hafter : ∀ j, i < j → j < l.length → l.getD j 'x' ≠ ' ') :
    rfindSpace l = some i := by
  induction l generalizing i with
  | nil => simp at hi
  | cons c rest ih =>
    cases i with
    | zero =>
      have hrest : rfindSpace rest = none := by
        apply rfindSpace_eq_none
        intro x hx
        obtain ⟨j, hj, he⟩ := List.getElem_of_mem hx
        have := hafter (j + 1) (by omega) (by simpa using Nat.succ_lt_succ hj)
        rw [List.getD_cons_succ, List.getD_eq_getElem _ _ hj, he] at this
        exact this
      simp only [rfindSpace, hrest]
      simpa using hsp
    | succ j =>
      have hj : j < rest.length := by simpa using hi
      have hr : rfindSpace rest = some j := by
        apply ih j hj
        · simpa using hsp
        · intro k hk1 hk2
          have := hafter (k + 1) (by omega) (by simpa using Nat.succ_lt_succ hk2)
          simpa using this
      simp only [rfindSpace, hr]

theorem wrapChunksGo_nil (fuel avail : Nat) : wrapChunksGo fuel avail [] = [] := by
  cases fuel <;> simp [wrapChunksGo]

theorem wrapChunks_single (avail : Nat) (line : List Char)
    (hne : line ≠ []) (hle : line.length ≤ avail) :
    wrapChunks avail line = [line] := by
  unfold wrapChunks
  simp only [wrapChunksGo]
  rw [if_neg hne]
  have hcs : chunkStep avail line = (line, []) := by
    simp [chunkStep, Nat.not_lt.mpr hle]
  rw [hcs]
  simp [trimStart, wrapChunksGo_nil]

theorem wrapChunks_head (avail : Nat) (line : List Char) (h : avail < line.length) :
    (wrapChunks avail line).headD [] = (chunkStep avail line).1 := by
  have hne : line ≠ [] := by
    intro he
    rw [he] at h
    simp at h
  unfold wrapChunks
  simp only [wrapChunksGo]
  rw [if_neg hne]
  simp

/-- C3 counterexample: an empty logical line (which arises from consecutive
embedded newlines) has length at most the available width yet yields zero
output segments from the wrap loop, not exactly one. -/
theorem c3_counterexample :
    ([] : List Char).length ≤ 35 ∧ ¬(wrapChunks 35 ([] : List Char)).length = 1 := by
  decide

/-- C3 amended: for every nonempty logical line whose length is at most the
available width the wrap loop yields exactly one segment (an empty line
yields none); if the length exceeds the available width and a space occurs
within the first `avail` characters, the first break is at the last such
space; if no space occurs in that window, the first break is exactly at the
width limit. -/
theorem c3_word_wrap (avail : Nat) (line : List Char) :
    (line ≠ [] → line.length ≤ avail → wrapChunks avail line = [line]) ∧
      (line = [] → wrapChunks avail line = []) ∧
      (avail < line.length →
        (∀ i, i < avail → line.getD i 'x' = ' ' →
          (∀ j, i < j → j < avail → line.getD j 'x' ≠ ' ') →
          (wrapChunks avail line).headD [] = line.take i) ∧
        ((∀ j, j < avail → line.getD j 'x' ≠ ' ') →
          (wrapChunks avail line).headD [] = line.take avail)) := by
  refine ⟨fun hne hle => wrapChunks_single avail line hne hle, ?_, fun hlen => ⟨?_, ?_⟩⟩
  · intro he
    rw [he]
    exact wrapChunksGo_nil _ _
  · intro i hi hsp hafter
    rw [wrapChunks_head avail line hlen]
    have htl : (line.take avail).length = avail := by
      rw [List.length_take]
      omega
    have hfind : rfindSpace (line.take avail) = some i := by
      apply rfindSpace_eq_some
      · rw [htl]
        exact hi
      · rw [getD_take_eq line avail i hi (by omega)]
        exact hsp
      · intro j hj1 hj2
        rw [htl] at hj2
        rw [getD_take_eq line avail j hj2 (by omega)]
        exact hafter j hj1 hj2
    simp [chunkStep, hlen, hfind]
  · intro hnosp
    rw [wrapChunks_head avail line hlen]
    have htl : (line.take avail).length = avail := by
      rw [List.length_take]
      omega
    have hfind : rfindSpace (line.take avail) = none := by
      apply rfindSpace_eq_none
      intro x hx
      obtain ⟨j, hj, he⟩ := List.getElem_of_mem hx
      have hja : j < avail := by
        rw [htl] at hj
        exact hj
      have h1 : (line.take avail).getD j 'x' = x := by
        rw [List.getD_eq_getElem _ _ hj, he]
      rw [getD_take_eq line avail j hja (by omega)] at h1
      rw [← h1]
      exact hnosp j hja
    simp [chunkStep, hlen, hfind]

/-- Witness for C3: a fitting line yields one segment; `ab cde` at width 4
breaks at the space (index 2); `abcd` at width 2 hard-breaks at the width
limit. -/
theorem c3_witness :
    wrapChunks 6 "ab cd".toList = ["ab cd".toList] ∧
      (wrapChunks 4 "ab cde".toList).headD [] = "ab cde".toList.take 2 ∧
      (wrapChunks 2 "abcd".toList).headD [] = "abcd".toList.take 2 :=
  ⟨(c3_word_wrap 6 "ab cd".toList).1 (by decide) (by decide),
   ((c3_word_wrap 4 "ab cde".toList).2.2 (by decide)).1 2 (by decide) (by decide)
     (by intro j h1 h2; interval_cases j; decide),
   ((c3_word_wrap 2 "abcd".toList).2.2 (by decide)).2
     (by intro j h; interval_cases j <;> decide)⟩

/-- C7 counterexample: the code styles the Debug badge black-bold on a
bright blue background, not gray/bright-black, and the Fatal badge on a
plain red background while Error gets the bright red one. -/
theorem c7_counterexample :
    (getLevelColor ['D']).1.style = blackBoldOn Color.brightBlue ∧
      (getLevelColor ['D']).1.style.bg ≠ some Color.brightBlack ∧
      (getLevelColor ['D']).1.style.bg ≠ some Color.black ∧
      (getLevelColor ['F']).1.style.bg = some Color.red ∧
      (getLevelColor ['F']).1.style.bg ≠ some Color.brightRed := by
  decide

/-- C7 amended: the badge mapping is total over all level tokens and
assigns black bold badges on these backgrounds: Verbose blue, Debug bright
blue, Info bright green, Warn yellow, Error bright red, Fatal red; every
unrecognized level gets the plain unstyled blank badge and a white message
color. -/
theorem c7_level_badges :
    getLevelColor ['V'] = (StyledText.mk " V ".toList (blackBoldOn Color.blue), Color.blue) ∧
      getLevelColor ['D'] = (StyledText.mk " D ".toList (blackBoldOn Color.brightBlue), Color.brightBlue) ∧
      getLevelColor ['I'] = (StyledText.mk " I ".toList (blackBoldOn Color.brightGreen), Color.brightGreen) ∧
      getLevelColor ['W'] = (StyledText.mk " W ".toList (blackBoldOn Color.yellow), Color.yellow) ∧
      getLevelColor ['E'] = (StyledText.mk " E ".toList (blackBoldOn Color.brightRed), Color.brightRed) ∧
      getLevelColor ['F'] = (StyledText.mk " F ".toList (blackBoldOn Color.red), Color.red) ∧
      ∀ level, level ≠ ['D'] → level ≠ ['I'] → level ≠ ['W'] → level ≠ ['E'] →
        level ≠ ['V'] → level ≠ ['F'] →
        getLevelColor level = (StyledText.mk "    ".toList normalStyle, Color.white) := by
  refine ⟨by decide, by decide, by decide, by decide, by decide, by decide, ?_⟩
  intro level h1 h2 h3 h4 h5 h6
  simp [getLevelColor, h1, h2, h3, h4, h5, h6]

/-- Witness for C7 at the unrecognized level token `Z`. -/
theorem c7_witness :
    getLevelColor ['Z'] = (StyledText.mk "    ".toList normalStyle, Color.white) :=
  c7_level_badges.2.2.2.2.2.2 ['Z'] (by decide) (by decide) (by decide) (by decide)
    (by decide) (by decide)

theorem innerGo_nil_rem (fuel avail : Nat) (c : Color) (pad : List Char) (isF : Bool)
    (res : List Char) : innerGo fuel avail c pad isF [] res = some res := by
  cases fuel <;> simp [innerGo]

theorem innerGo_zero_width (rem : List Char) (hne : rem ≠ [])
    (hfix : trimStart rem = rem) (fuel : Nat) (c : Color) (pad : List Char)
    (isF : Bool) (res : List Char) :
    innerGo fuel 0 c pad isF rem res = none := by
  induction fuel generalizing res with
  | zero => simp [innerGo, hne]
  | succ k ih =>
    simp only [innerGo]
    rw [if_neg hne]
    have hcs : chunkStep 0 rem = ([], rem) := by
      have hpos : rem.length > 0 := List.length_pos.mpr hne
      simp [chunkStep, hpos, rfindSpace]
    rw [hcs]
    simp only [hfix]
    exact ih _

/-- C9 counterexample: a reported terminal width of zero is not replaced by
80: at width 0 the wrap loop exhausts any fuel (the source loop makes no
progress and never terminates), while at width 80 the same message renders
as a single segment. -/
theorem c9_counterexample :
    formatMultilineContent "ab".toList Color.white false (some 0) = none ∧
      formatMultilineContent "ab".toList Color.white false (some 80)
        = some (applyStyle (fgOnly Color.white) "ab".toList) := by
  decide

/-- C9 amended: only an unavailable terminal width falls back to the
default of 80 columns; a reported width of zero is used as-is, which makes
the available width zero and the wrap loop diverge (it returns none for
every amount of fuel) on any nonempty line it cannot shrink by trimming. -/
theorem c9_width_fallback :
    (∀ (content : List Char) (c : Color) (hideTimestamp : Bool),
        formatMultilineContent content c hideTimestamp none
          = formatMultilineContent content c hideTimestamp (some 80)) ∧
      ∀ (rem : List Char) (fuel : Nat) (c : Color) (pad : List Char) (isF : Bool)
        (res : List Char), rem ≠ [] → trimStart rem = rem →
        innerGo fuel 0 c pad isF rem res = none := by
  constructor
  · intro content c hideTimestamp
    rfl
  · intro rem fuel c pad isF res hne hfix
    exact innerGo_zero_width rem hne hfix fuel c pad isF res

/-- Witness for C9: the fallback at an unavailable width, and divergence of
the zero-width loop on the concrete remaining text `ab`. -/
theorem c9_witness :
    formatMultilineContent "hi".toList Color.white false none
        = formatMultilineContent "hi".toList Color.white false (some 80) ∧
      innerGo 5 0 Color.white (spaces 45) true "ab".toList [] = none :=
  ⟨c9_width_fallback.1 "hi".toList Color.white false,
   c9_width_fallback.2 "ab".toList 5 Color.white (spaces 45) true [] (by decide)
     (by decide)⟩

theorem getLast?_append_singleton (l : List Char) (a : Char) :
    (l ++ [a]).getLast? = some a := by
  simp

theorem splitNlGo_cons (c : Char) (rest cur : List Char) :
    splitNlGo (c :: rest) cur
      = if c = '\n' then cur.reverse :: splitNlGo rest []
        else splitNlGo rest (c :: cur) := rfl

theorem splitNlGo_no_nl (l : List Char) (cur : List Char) (h : '\n' ∉ l) :
    splitNlGo l cur = [cur.reverse ++ l] := by
  induction l generalizing cur with
  | nil => simp [splitNlGo]
  | cons c rest ih =>
    simp only [List.mem_cons, not_or] at h
    rw [splitNlGo_cons, if_neg (fun he => h.1 he.symm), ih (c :: cur) h.2]
    simp

theorem splitNlGo_split (l1 l2 cur : List Char) (h : '\n' ∉ l1) :
    splitNlGo (l1 ++ '\n' :: l2) cur = (cur.reverse ++ l1) :: splitNl l2 := by
  induction l1 generalizing cur with
  | nil =>
    rw [List.nil_append, splitNlGo_cons, if_pos rfl]
    simp [splitNl]
  | cons c rest ih =>
    simp only [List.mem_cons, not_or] at h
    rw [List.cons_append, splitNlGo_cons, if_neg (fun he => h.1 he.symm),
      ih (c :: cur) h.2]
    simp

theorem linesOf_single (m : List Char) (hne : m ≠ []) (h : '\n' ∉ m) :
    linesOf m = [m] := by
  rcases List.eq_nil_or_concat m with he | ⟨l', a, he⟩
  · exact absurd he hne
  · subst he
    have ha : a ∈ l'.concat a := by simp
    have hlast : (l'.concat a).getLast? = some a := by simp
    have hane : a ≠ '\n' := fun heq => h (heq ▸ ha)
    unfold linesOf
    rw [if_neg hne, if_neg (by simp [hlast, hane])]
    simpa using splitNlGo_no_nl (l'.concat a) [] h

theorem linesOf_pair (l1 l2 : List Char) (h1 : '\n' ∉ l1) (h2 : '\n' ∉ l2)
    (hne : l2 ≠ []) : linesOf (l1 ++ '\n' :: l2) = [l1, l2] := by
  rcases List.eq_nil_or_concat l2 with he | ⟨l', a, he⟩
  · exact absurd he hne
  · have ha : a ∈ l2 := by simp [he]
    have hane : a ≠ '\n' := fun heq => h2 (heq ▸ ha)
    have hsplit : l1 ++ '\n' :: l2 = (l1 ++ '\n' :: l') ++ [a] := by
      rw [he, List.concat_eq_append]
      simp
    have hlast : (l1 ++ '\n' :: l2).getLast? = some a := by
      rw [hsplit]
      exact getLast?_append_singleton (l1 ++ '\n' :: l') a
    unfold linesOf
    rw [if_neg (by simp), if_neg (by simp [hlast, hane])]
    unfold splitNl
    rw [splitNlGo_split l1 l2 [] h1]
    simp [splitNl, splitNlGo_no_nl l2 [] h2]

theorem trimStart_eq_self (l : List Char) (h : ∀ x ∈ l, isWs x = false) :
    trimStart l = l := by
  cases l with
  | nil => rfl
  | cons c rest =>
    simp [trimStart, List.dropWhile_cons, h c (List.mem_cons_self c rest)]

theorem rfindSpace_none_of_no_ws (l : List Char) (h : ∀ x ∈ l, isWs x = false) :
    rfindSpace l = none := by
  apply rfindSpace_eq_none
  intro c hc he
  have hw := h c hc
  rw [he] at hw
  simp [isWs] at hw

theorem applyStyle_fgOnly_ne_nil (c : Color) (s : List Char) :
    applyStyle (fgOnly c) s ≠ [] := by
  simp [applyStyle, isPlain, fgOnly]

theorem innerGo_succ (fuel avail : Nat) (c : Color) (pad : List Char) (isF : Bool)
    (remaining res : List Char) :
    innerGo (fuel + 1) avail c pad isF remaining res
      = if remaining = [] then some res
        else innerGo fuel avail c pad isF (trimStart (chunkStep avail remaining).2)
          ((if isF = true ∧ res = [] then res else res ++ '\n' :: pad)
            ++ applyStyle (fgOnly c) (chunkStep avail remaining).1) := rfl

theorem outerGo_nil_lines (avail : Nat) (c : Color) (pad : List Char) (isF : Bool)
    (res : List Char) : outerGo avail c pad [] isF res = some res := rfl

theorem outerGo_cons_line (avail : Nat) (c : Color) (pad : List Char)
    (line : List Char) (rest : List (List Char)) (isF : Bool) (res : List Char) :
    outerGo avail c pad (line :: rest) isF res
      = match innerGo (line.length + 1) avail c pad isF line
            (if isF then res else res ++ '\n' :: pad) with
        | none => none
        | some res2 => outerGo avail c pad rest false res2 := rfl

theorem innerGo_fits (fuel avail : Nat) (c : Color) (pad : List Char) (isF : Bool)
    (line res : List Char) (hne : line ≠ []) (hle : line.length ≤ avail) :
    innerGo (fuel + 1) avail c pad isF line res
      = some ((if isF = true ∧ res = [] then res else res ++ '\n' :: pad)
          ++ applyStyle (fgOnly c) line) := by
  rw [innerGo_succ, if_neg hne]
  have hcs : chunkStep avail line = (line, []) := by
    simp [chunkStep, Nat.not_lt.mpr hle]
  rw [hcs]
  exact innerGo_nil_rem fuel avail c pad isF _

theorem innerGo_two_chunks (avail : Nat) (c : Color) (pad : List Char)
    (m : List Char) (hm : ∀ x ∈ m, isWs x = false)
    (hlt : avail < m.length) (hle2 : m.length ≤ 2 * avail) :
    innerGo (m.length + 1) avail c pad true m []
      = some (applyStyle (fgOnly c) (m.take avail)
          ++ '\n' :: pad ++ applyStyle (fgOnly c) (m.drop avail)) := by
  have hmne : m ≠ [] := by
    intro he
    rw [he] at hlt
    simp at hlt
  have hcs1 : chunkStep avail m = (m.take avail, m.drop avail) := by
    simp [chunkStep, hlt,
      rfindSpace_none_of_no_ws _ (fun x hx => hm x (List.mem_of_mem_take hx))]
  have hts : trimStart (m.drop avail) = m.drop avail :=
    trimStart_eq_self _ (fun x hx => hm x (List.mem_of_mem_drop hx))
  have hdne : m.drop avail ≠ [] := by
    intro he
    have hlen := congrArg List.length he
    simp [List.length_drop] at hlen
    omega
  have hdlen : (m.drop avail).length ≤ avail := by
    rw [List.length_drop]
    omega
  obtain ⟨k, hk⟩ : ∃ k, m.length = k + 1 := ⟨m.length - 1, by omega⟩
  rw [hk, innerGo_succ, if_neg hmne, hcs1]
  simp only [if_pos (And.intro rfl rfl), List.nil_append, hts]
  rw [innerGo_fits k avail c pad true (m.drop avail) _ hdne hdlen]
  rw [if_neg (fun hx => applyStyle_fgOnly_ne_nil c (m.take avail) hx.2)]
  simp

/-- C8 counterexample: for the two-line message `a` newline `b`, the
newline-plus-padding prefix is emitted twice between the blocks — once by
the outer loop for the line break and once before the first chunk of the
second line — so the second block is preceded by an extra blank
padding-only line, not by a single padding prefix. -/
theorem c8_counterexample :
    formatMultilineContent "a\nb".toList Color.white false (some 80)
        = some (applyStyle (fgOnly Color.white) ['a']
            ++ '\n' :: spaces (messageStartPadding false)
            ++ '\n' :: spaces (messageStartPadding false)
            ++ applyStyle (fgOnly Color.white) ['b']) ∧
      formatMultilineContent "a\nb".toList Color.white false (some 80)
        ≠ some (applyStyle (fgOnly Color.white) ['a']
            ++ '\n' :: spaces (messageStartPadding false)
            ++ applyStyle (fgOnly Color.white) ['b']) := by
  decide

/-- C8 amended: rendering splits on embedded newlines first and wraps each
logical line as its own block aligned at the message-start column, but
every block after the first is preceded by the newline-plus-padding string
twice, producing one blank padding-only line between blocks; within a
block, each wrapped continuation segment is prefixed with exactly one
newline plus message-start padding. -/
theorem c8_multiline_blocks (l1 l2 : List Char) (c : Color) (hideTimestamp : Bool)
    (tw : Nat) (h1n : l1 ≠ []) (h2n : l2 ≠ []) (h1nl : '\n' ∉ l1) (h2nl : '\n' ∉ l2)
    (h1w : l1.length ≤ tw - messageStartPadding hideTimestamp)
    (h2w : l2.length ≤ tw - messageStartPadding hideTimestamp) :
    formatMultilineContent (l1 ++ '\n' :: l2) c hideTimestamp (some tw)
        = some (applyStyle (fgOnly c) l1
            ++ '\n' :: spaces (messageStartPadding hideTimestamp)
            ++ '\n' :: spaces (messageStartPadding hideTimestamp)
            ++ applyStyle (fgOnly c) l2) ∧
      ∀ (m : List Char), (∀ x ∈ m, isWs x = false) →
        tw - messageStartPadding hideTimestamp < m.length →
        m.length ≤ 2 * (tw - messageStartPadding hideTimestamp) →
        formatMultilineContent m c hideTimestamp (some tw)
          = some (applyStyle (fgOnly c)
                (m.take (tw - messageStartPadding hideTimestamp))
              ++ '\n' :: spaces (messageStartPadding hideTimestamp)
              ++ applyStyle (fgOnly c)
                (m.drop (tw - messageStartPadding hideTimestamp))) := by
  constructor
  · have hstep1 : innerGo (l1.length + 1) (tw - messageStartPadding hideTimestamp) c
        (spaces (messageStartPadding hideTimestamp)) true l1 []
        = some (applyStyle (fgOnly c) l1) := by
      rw [innerGo_fits l1.length _ c _ true l1 [] h1n h1w]
      simp
    have hstep2 : innerGo (l2.length + 1) (tw - messageStartPadding hideTimestamp) c
        (spaces (messageStartPadding hideTimestamp)) false l2
        (applyStyle (fgOnly c) l1 ++ '\n' :: spaces (messageStartPadding hideTimestamp))
        = some (applyStyle (fgOnly c) l1
            ++ '\n' :: spaces (messageStartPadding hideTimestamp)
            ++ '\n' :: spaces (messageStartPadding hideTimestamp)
            ++ applyStyle (fgOnly c) l2) := by
      rw [innerGo_fits l2.length _ c _ false l2 _ h2n h2w,
        if_neg (fun hx => Bool.false_ne_true hx.1)]
    unfold formatMultilineContent
    rw [linesOf_pair l1 l2 h1nl h2nl h2n]
    simp only [Option.getD_some]
    rw [outerGo_cons_line, if_pos rfl, hstep1]
    show outerGo (tw - messageStartPadding hideTimestamp) c
        (spaces (messageStartPadding hideTimestamp)) [l2] false
        (applyStyle (fgOnly c) l1) = _
    rw [outerGo_cons_line, if_neg Bool.false_ne_true, hstep2]
    rfl
  · intro m hm hlt hle2
    have hmne : m ≠ [] := by
      intro he
      rw [he] at hlt
      simp at hlt
    have hmnl : '\n' ∉ m := by
      intro hmem
      have hw := hm '\n' hmem
      simp [isWs] at hw
    unfold formatMultilineContent
    rw [linesOf_single m hmne hmnl]
    simp only [Option.getD_some]
    rw [outerGo_cons_line, if_pos rfl,
      innerGo_two_chunks (tw - messageStartPadding hideTimestamp) c _ m hm hlt hle2]
    rfl

/-- Witness for C8: the two-line message `a` newline `b` rendered with the
blank padded line between blocks, and an unbreakable 40-character line at
width 80 wrapped into two segments with one padding prefix. -/
theorem c8_witness :
    formatMultilineContent ("a".toList ++ '\n' :: "b".toList) Color.white false (some 80)
        = some (applyStyle (fgOnly Color.white) "a".toList
            ++ '\n' :: spaces (messageStartPadding false)
            ++ '\n' :: spaces (messageStartPadding false)
            ++ applyStyle (fgOnly Color.white) "b".toList) ∧
      formatMultilineContent (List.replicate 40 'x') Color.white false (some 80)
        = some (applyStyle (fgOnly Color.white)
              ((List.replicate 40 'x').take (80 - messageStartPadding false))
            ++ '\n' :: spaces (messageStartPadding false)
            ++ applyStyle (fgOnly Color.white)
              ((List.replicate 40 'x').drop (80 - messageStartPadding false))) :=
  ⟨(c8_multiline_blocks "a".toList "b".toList Color.white false 80 (by decide) (by decide)
      (by decide) (by decide) (by decide) (by decide)).1,
   (c8_multiline_blocks "a".toList "b".toList Color.white false 80 (by decide) (by decide)
      (by decide) (by decide) (by decide) (by decide)).2 (List.replicate 40 'x')
     (by decide) (by decide) (by decide)⟩

end Rustycat
